import Mathlib

/-!
Verification development for the Player repository: a shallow embedding of
the stream-source aggregator (retry with exponential backoff, sub/dub fetch
orchestration, multi-server fan-out) and of the HLS playlist rewriting proxy
(`rewriteM3u8`, baseUrl computation, percent-encoding), faithful to
`src/index.ts` and the `PlayerConnect` class.

JavaScript string semantics are modelled at the character-list level:
`String.prototype.replace` with a string pattern (first occurrence only),
`includes`, `startsWith`, `trim`, `split('\n')`/`join('\n')`,
`substring(0, lastIndexOf('/') + 1)`, `encodeURIComponent`, and the two
global regex replaces used to strip codec attributes.
All input strings of interest here are ASCII, where these models agree
byte-for-byte with the JavaScript originals.
-/

namespace Player

/-! ## JS string primitives over `List Char` -/

/-- If `pat` is a prefix of `l`, consume it and return the remainder. -/
def prefixConsume : List Char → List Char → Option (List Char)
  | [], l => some l
  | _ :: _, [] => none
  | p :: ps, c :: cs => if c = p then prefixConsume ps cs else none

/-- Whether `pat` is a prefix of `l` (JS `startsWith`). -/
def prefixList (pat l : List Char) : Bool :=
  (prefixConsume pat l).isSome

/-- Whether `pat` occurs as a contiguous sublist of `l` (JS `includes`). -/
def occursList (pat : List Char) : List Char → Bool
  | [] => prefixList pat []
  | c :: cs => prefixList pat (c :: cs) || occursList pat cs

/-- JS `s.replace(pat, rep)` with a plain-string pattern: replace the first
occurrence only; unchanged when there is none. -/
def replaceFirstList (pat rep : List Char) : List Char → List Char
  | [] => if pat = [] then rep else []
  | c :: cs =>
    match prefixConsume pat (c :: cs) with
    | some rest => rep ++ rest
    | none => c :: replaceFirstList pat rep cs

/-- JS whitespace test for the ASCII characters `String.prototype.trim`
removes (space, tab, LF, CR, VT, FF). -/
def jsWhitespace (c : Char) : Bool :=
  c = ' ' || c = '\t' || c = '\n' || c = '\r' || c.toNat = 11 || c.toNat = 12

/-- JS `s.trim()`: drop leading and trailing whitespace. -/
def trimList (l : List Char) : List Char :=
  ((l.dropWhile jsWhitespace).reverse.dropWhile jsWhitespace).reverse

/-- JS `s.includes(pat)` on strings. -/
def jsIncludes (s pat : String) : Bool :=
  occursList pat.data s.data

/-- JS `s.startsWith(pat)` on strings. -/
def jsStartsWith (s pat : String) : Bool :=
  prefixList pat.data s.data

/-- JS `s.replace(pat, rep)` (first occurrence) on strings. -/
def jsReplaceFirst (s pat rep : String) : String :=
  ⟨replaceFirstList pat.data rep.data s.data⟩

/-- JS `s.trim()` on strings. -/
def jsTrim (s : String) : String :=
  ⟨trimList s.data⟩

/-- The prefix of `l` up to and including its last `'/'`
(`url.substring(0, url.lastIndexOf('/') + 1)`); empty when there is no
slash, matching `lastIndexOf` returning `-1`. -/
def baseOfList : List Char → List Char
  | [] => []
  | c :: cs =>
    if cs.contains '/' then c :: baseOfList cs
    else if c = '/' then ['/'] else []

/-- `targetUrl.substring(0, targetUrl.lastIndexOf('/') + 1)` as computed by
the `/proxy` handler. -/
def jsBaseUrl (url : String) : String :=
  ⟨baseOfList url.data⟩

/-! ## `encodeURIComponent` -/

/-- Characters `encodeURIComponent` leaves unencoded: ASCII alphanumerics
and `- _ . ! ~ * ' ( )` (checked by code point). -/
def uriUnreserved (c : Char) : Bool :=
  c.isAlpha || c.isDigit ||
    c.toNat = 45 || c.toNat = 95 || c.toNat = 46 || c.toNat = 33 ||
    c.toNat = 126 || c.toNat = 42 || c.toNat = 39 || c.toNat = 40 || c.toNat = 41

/-- Uppercase hexadecimal digit for `n < 16`. -/
def hexDigit (n : Nat) : Char :=
  if n < 10 then Char.ofNat (48 + n) else Char.ofNat (55 + n)

/-- UTF-8 bytes of one code point. -/
def utf8Bytes (c : Char) : List Nat :=
  let n := c.toNat
  if n < 0x80 then [n]
  else if n < 0x800 then
    [0xC0 + n / 64, 0x80 + n % 64]
  else if n < 0x10000 then
    [0xE0 + n / 4096, 0x80 + n / 64 % 64, 0x80 + n % 64]
  else
    [0xF0 + n / 262144, 0x80 + n / 4096 % 64, 0x80 + n / 64 % 64, 0x80 + n % 64]

/-- `%XX` escape of one byte. -/
def percentByte (b : Nat) : List Char :=
  ['%', hexDigit (b / 16), hexDigit (b % 16)]

/-- JS `encodeURIComponent`: unreserved characters pass through, every
other character is replaced by the `%XX` escapes of its UTF-8 bytes. -/
def encodeURIComponent (s : String) : String :=
  ⟨s.data.flatMap fun c =>
    if uriUnreserved c then [c] else (utf8Bytes c).flatMap percentByte⟩

/-! ## Codec-attribute stripping

`line.replace(/,CODECS="[^"]*"/g, '').replace(/CODECS="[^"]*",?/g, '')`.
Each global replace scans left to right, removes the leftmost match and
continues scanning after it (the removed span is not rescanned, and with an
empty replacement the scan simply resumes at the character following the
match). Recursion is by fuel, initialised to the list length, which always
suffices because every step consumes at least one character. -/

/-- Consume characters up to and including the next `'"'`
(the `[^"]*"` part of both codec regexes); `none` when no quote follows. -/
def dropThroughQuote : List Char → Option (List Char)
  | [] => none
  | c :: cs => if c = '"' then some cs else dropThroughQuote cs

/-- Match `,CODECS="[^"]*"` at the head of the list, returning the
remainder after the match. -/
def matchCommaCodecs (l : List Char) : Option (List Char) :=
  match prefixConsume ",CODECS=\"".data l with
  | some rest => dropThroughQuote rest
  | none => none

/-- Match `CODECS="[^"]*",?` at the head of the list (greedy optional
trailing comma), returning the remainder after the match. -/
def matchCodecsComma (l : List Char) : Option (List Char) :=
  match prefixConsume "CODECS=\"".data l with
  | some rest =>
    match dropThroughQuote rest with
    | some (',' :: after) => some after
    | some after => some after
    | none => none
  | none => none

/-- Fueled scan for the first global replace `,CODECS="[^"]*" -> ''`. -/
def stripAux1 : Nat → List Char → List Char
  | 0, l => l
  | _ + 1, [] => []
  | fuel + 1, c :: cs =>
    match matchCommaCodecs (c :: cs) with
    | some after => stripAux1 fuel after
    | none => c :: stripAux1 fuel cs

/-- Fueled scan for the second global replace `CODECS="[^"]*",? -> ''`. -/
def stripAux2 : Nat → List Char → List Char
  | 0, l => l
  | _ + 1, [] => []
  | fuel + 1, c :: cs =>
    match matchCodecsComma (c :: cs) with
    | some after => stripAux2 fuel after
    | none => c :: stripAux2 fuel cs

/-- The chained pair of global regex replaces applied to a line when the
manifest is a master playlist and the line mentions `CODECS=`. -/
def stripCodecsList (l : List Char) : List Char :=
  stripAux2 (stripAux1 l.length l).length (stripAux1 l.length l)

/-! ## `rewriteM3u8` -/

/-- Split a character list at every `'\n'`, keeping empty pieces
(the semantics of JS `content.split('\n')`). -/
def splitLinesList : List Char → List (List Char)
  | [] => [[]]
  | c :: cs =>
    match splitLinesList cs with
    | [] => [[]]
    | l :: ls => if c = '\n' then [] :: l :: ls else (c :: l) :: ls

/-- JS `content.split('\n')` on strings. -/
def splitLines (s : String) : List String :=
  (splitLinesList s.data).map (fun d => ⟨d⟩)

/-- The per-line transform inside `rewriteM3u8` (`src/index.ts` lines
20-38): optional codec stripping, then trim; non-empty non-comment lines
are left alone when already proxied, otherwise resolved against `baseUrl`
when relative and replaced by `'/proxy?url=' + encodeURIComponent(full)`. -/
def processLine (baseUrl : String) (isMaster : Bool) (line : String) : String :=
  let processedLine :=
    if isMaster && jsIncludes line "CODECS=" then ⟨stripCodecsList line.data⟩
    else line
  let trimmedLine := jsTrim processedLine
  if trimmedLine ≠ "" && !jsStartsWith trimmedLine "#" then
    if jsStartsWith trimmedLine "/proxy?url=" then trimmedLine
    else
      let fullUrl :=
        if !jsStartsWith trimmedLine "http://" && !jsStartsWith trimmedLine "https://" then
          baseUrl ++ trimmedLine
        else trimmedLine
      "/proxy?url=" ++ encodeURIComponent fullUrl
  else processedLine

/-- `rewriteM3u8(content, baseUrl, isMaster)` from `src/index.ts`. -/
def rewriteM3u8 (content baseUrl : String) (isMaster : Bool) : String :=
  String.intercalate "\n" ((splitLines content).map (processLine baseUrl isMaster))

/-- Whether the manifest contains the stream-variant marker
(`text.includes('#EXT-X-STREAM-INF')` in the `/proxy` handler). -/
def hasStreamInf (content : String) : Bool :=
  jsIncludes content "#EXT-X-STREAM-INF"

/-- The playlist branch of the `/proxy` handler: compute `baseUrl` from the
target URL, detect the master marker once over the whole body, rewrite. -/
def proxyPlaylist (targetUrl body : String) : String :=
  rewriteM3u8 body (jsBaseUrl targetUrl) (hasStreamInf body)

/-! ## `retryWithBackoff`

`retryWithBackoff(fn, maxRetries, baseDelay)` loops `attempt` from `0` to
`maxRetries - 1`; a successful call returns immediately; a failed call
records `lastError` and, when `attempt < maxRetries - 1`, sleeps
`baseDelay * 2 ^ attempt` ms first. After the loop the recorded `lastError`
is thrown (`undefined`, modelled `none`, when the loop never ran).

The wrapped operation is modelled as a map from the 0-based attempt index
to that attempt's outcome, and the executor returns the observable trace:
the final outcome, how many times the operation was invoked, and the list
of delays slept, in order. -/

/-- Observable behaviour of one `retryWithBackoff` run. -/
structure RetryTrace (α : Type) where
  result : Except (Option String) α
  calls : Nat
  delays : List Nat
  deriving Repr

/-- The retry loop; `fuel` counts the iterations left
(`maxRetries - attempt`). -/
def retryAux (fn : Nat → Except String α) (maxRetries baseDelay : Nat) :
    Nat → Nat → Option String → RetryTrace α
  | _, 0, lastError => ⟨.error lastError, 0, []⟩
  | attempt, fuel + 1, _ =>
    match fn attempt with
    | .ok v => ⟨.ok v, 1, []⟩
    | .error e =>
      let t := retryAux fn maxRetries baseDelay (attempt + 1) fuel (some e)
      if attempt < maxRetries - 1 then
        ⟨t.result, t.calls + 1, baseDelay * 2 ^ attempt :: t.delays⟩
      else
        ⟨t.result, t.calls + 1, t.delays⟩

/-- `retryWithBackoff` from `src/index.ts` lines 80-101 (identical to
`PlayerConnect.retryWithBackoff`). -/
def retryWithBackoff (fn : Nat → Except String α) (maxRetries baseDelay : Nat) :
    RetryTrace α :=
  retryAux fn maxRetries baseDelay 0 maxRetries none

/-! ## Provider model and stream aggregator

The upstream scraping capability (`scraper.getEpisodeSources`) is a
collaborator outside this repository; it is modelled as an oracle mapping
the call arguments `(episodeId, server, category)` and the 0-based attempt
index to either a thrown error or a resolved value. A resolved value is an
`Option RawResult` (`none` models a `null`/`undefined` resolution), and
each field the code inspects defensively is itself an `Option` (`none`
models a missing field), so every success/failure/malformed-response mix
the handlers guard against is expressible. -/

/-- One element of the provider's `sources` array. A missing `url`
property is modelled as the empty string, which is exactly what the code's
truthiness tests distinguish. -/
structure RawSource where
  url : String
  deriving Repr, DecidableEq

/-- One element of the provider's `subtitles`/`tracks` arrays. -/
structure RawTrack where
  url : String
  lang : String
  dflt : Option Bool
  deriving Repr, DecidableEq

/-- The provider's resolved object, with every field the handlers guard
for modelled as optional. -/
structure RawResult where
  sources : Option (List RawSource)
  subtitles : Option (List RawTrack)
  tracks : Option (List RawTrack)
  deriving Repr, DecidableEq

/-- The upstream oracle: episode id, server, category, attempt index. -/
def Scraper : Type :=
  String → String → String → Nat → Except String (Option RawResult)

/-- `{ file: string | null }`. -/
structure LinkObj where
  file : Option String
  deriving Repr, DecidableEq

/-- A mapped subtitle track (`{file, label, kind, default}`); the source's
`default` field is spelled `dflt` because `default` is reserved in Lean. -/
structure Track where
  file : String
  label : String
  kind : String
  dflt : Bool
  deriving Repr, DecidableEq

/-- `{ start, end }` in seconds; the source's `end` field is spelled
`stop` because `end` is reserved in Lean. -/
structure Timing where
  start : Nat
  stop : Nat
  deriving Repr, DecidableEq

/-- The canonical per-category stream shape built by the handlers. -/
structure StreamData where
  type : String
  link : LinkObj
  tracks : List Track
  intro : Timing
  outro : Timing
  server : String
  deriving Repr, DecidableEq

/-- The `dub` field of the response: the literal empty object, or a full
`StreamData`. -/
inductive DubField where
  | empty : DubField
  | filled : StreamData → DubField
  deriving Repr, DecidableEq

/-- The `data` object of the aggregated response. -/
structure AggData where
  sub : StreamData
  dub : DubField
  deriving Repr, DecidableEq

/-- `PlayerConnectResponse`. -/
structure PCResponse where
  success : Bool
  data : AggData
  note : String
  deriving Repr, DecidableEq

/-- A run of `getEpisodeStreams` together with the number of provider
invocations made for each category (ghost observables of the trace). -/
structure AggTrace where
  resp : PCResponse
  subCalls : Nat
  dubCalls : Nat
  deriving Repr, DecidableEq

/-- `t.lang || 'Unknown'` and `t.default || false` applied to one raw
subtitle entry. -/
def mapTrack (t : RawTrack) : Track :=
  { file := t.url
    label := if t.lang = "" then "Unknown" else t.lang
    kind := "captions"
    dflt := t.dflt.getD false }

/-- JS truthiness of `sub.link.file` (`null` and `''` are falsy). -/
def fileTruthy : Option String → Bool
  | some s => s ≠ ""
  | none => false

/-- `streamData && streamData.sources && streamData.sources.length > 0`. -/
def sourcesNonempty : Option RawResult → Bool
  | some r => match r.sources with
    | some (_ :: _) => true
    | _ => false
  | none => false

/-- `PlayerConnect.getEpisodeStreams` (src/unnamed/part_002 lines 72-175,
identical in logic to the `/api/stream` handler of `src/index.ts`),
instrumented with per-category provider invocation counts.

The sub fetch runs under `retryWithBackoff(fn, 3, 1000)` inside a `try`
block; if that throws, the `catch` absorbs the error and — because the dub
fetch sits inside the same `try` — the dub fetch is never reached. On a
resolved sub fetch, the dub fetch runs under
`retryWithBackoff(fn, 2, 500).catch(() => null)`. -/
def getEpisodeStreamsT (scraper : Scraper) (id : String) (server : String) : AggTrace :=
  let normalizedId := jsReplaceFirst id "::" "?"
  let serverParam := server.toLower
  let subInit : StreamData :=
    { type := "sub", link := ⟨none⟩, tracks := [], intro := ⟨0, 0⟩, outro := ⟨0, 0⟩
      server := serverParam }
  let subRetry := retryWithBackoff (scraper normalizedId serverParam "sub") 3 1000
  match subRetry.result with
  | .error _ =>
    -- the catch block logs and falls through to `res.json`; dub never ran
    { resp :=
        { success := true
          data := { sub := subInit, dub := .empty }
          note := if fileTruthy subInit.link.file then "Stream loaded"
                  else "Stream not available - try another server" }
      subCalls := subRetry.calls
      dubCalls := 0 }
  | .ok streamData =>
    let sub : StreamData :=
      match streamData with
      | some sd =>
        match sd.sources with
        | some (s0 :: _) =>
          { subInit with
            link := ⟨some s0.url⟩
            tracks := match sd.subtitles with
              | some subs => subs.map mapTrack
              | none => [] }
        | _ => subInit
      | none => subInit
    let dubRetry := retryWithBackoff (scraper normalizedId serverParam "dub") 2 500
    -- `.catch(() => null)` folds a rejection into a null resolution
    let dubData : Option RawResult :=
      match dubRetry.result with
      | .ok v => v
      | .error _ => none
    let dub : DubField :=
      match dubData with
      | some dd =>
        match dd.sources with
        | some (s0 :: _) =>
          .filled
            { type := "dub"
              link := ⟨some s0.url⟩
              tracks := match dd.subtitles with
                | some subs => subs.map mapTrack
                | none => []
              intro := ⟨0, 0⟩, outro := ⟨0, 0⟩
              server := serverParam }
        | _ => .empty
      | none => .empty
    { resp :=
        { success := true
          data := { sub := sub, dub := dub }
          note := if fileTruthy sub.link.file then "Stream loaded"
                  else "Stream not available - try another server" }
      subCalls := subRetry.calls
      dubCalls := dubRetry.calls }

/-- The response of `PlayerConnect.getEpisodeStreams`. -/
def getEpisodeStreams (scraper : Scraper) (id : String) (server : String) : PCResponse :=
  (getEpisodeStreamsT scraper id server).resp

/-! ## Multi-server operation -/

/-- The `captions` object keyed by language label; JS object insertion
order: re-assigning an existing key overwrites its value in place. -/
def CapMap : Type := List (String × String)

instance : DecidableEq CapMap := by unfold CapMap; infer_instance

/-- `captionsObj[t.lang] = t.url`: overwrite an existing key in place,
otherwise append. -/
def insertCap : CapMap → String → String → CapMap
  | [], k, v => [(k, v)]
  | (k', v') :: rest, k, v =>
    if k' = k then (k', v) :: rest else (k', v') :: insertCap rest k v

/-- `tracks.forEach(t => { if (t.lang && t.lang !== 'thumbnails' && t.url)
captionsObj[t.lang] = t.url })`. -/
def buildCaptions (tracks : List RawTrack) : CapMap :=
  tracks.foldl
    (fun m t =>
      if t.lang ≠ "" && t.lang ≠ "thumbnails" && t.url ≠ "" then
        insertCap m t.lang t.url
      else m)
    []

/-- A per-category entry of a server object in the multi-server response. -/
structure CatSource where
  type : String
  link : Option String
  captions : CapMap
  deriving DecidableEq

/-- One entry of the `servers` array. -/
structure ServerObj where
  name : String
  id : String
  sub : CatSource
  dub : CatSource
  deriving DecidableEq

/-- The multi-server episode response. -/
structure MultiResponse where
  success : Bool
  contentType : String
  contentId : String
  episode : String
  servers : List ServerObj
  deriving DecidableEq

/-- `serverName.charAt(0).toUpperCase() + serverName.slice(1)`. -/
def capFirst (s : String) : String :=
  match s.data with
  | [] => ""
  | c :: cs => ⟨c.toUpper :: cs⟩

/-- One category fetch of the multi-server loop:
`retryWithBackoff(fn, 2, 500).catch(() => null)`, then
`if (data?.sources?.[0]?.url)` set the link and, when
`data.tracks?.length`, build the captions map. -/
def fetchCat (scraper : Scraper) (id serverName cat : String) : CatSource :=
  let r := retryWithBackoff (scraper id serverName cat) 2 500
  let dOpt : Option RawResult :=
    match r.result with
    | .ok v => v
    | .error _ => none
  let base : CatSource := { type := cat, link := none, captions := [] }
  match dOpt with
  | some d =>
    match d.sources with
    | some (s0 :: _) =>
      if s0.url ≠ "" then
        { base with
          link := some s0.url
          captions := match d.tracks with
            | some (t0 :: ts) => buildCaptions (t0 :: ts)
            | _ => [] }
      else base
    | _ => base
  | none => base

/-- One iteration of the `for (const serverName of serverList)` loop. -/
def serverObjFor (scraper : Scraper) (id serverName : String) : ServerObj :=
  { name := capFirst serverName
    id := serverName
    sub := fetchCat scraper id serverName "sub"
    dub := fetchCat scraper id serverName "dub" }

/-- `PlayerConnect.getEpisodeMultiServer` (src/unnamed/part_002 lines
184-263, same logic as the `/api/stream/:type/:tvId/ep/:epid` route of
src/unnamed/part_001): fixed server list `['hd-1', 'hd-2', 'hd-3']`, one
server object pushed per iteration no matter how its fetches fared. -/
def getEpisodeMultiServer (scraper : Scraper) (type tvId epid : String) : MultiResponse :=
  let id := tvId ++ "?ep=" ++ epid
  let serverList := ["hd-1", "hd-2", "hd-3"]
  { success := true
    contentType := type
    contentId := tvId
    episode := epid
    servers := serverList.map (serverObjFor scraper id) }

/-! ## Lemmas about `retryWithBackoff` -/

theorem retryAux_ok_step {α : Type} {fn : Nat → Except String α} {a : Nat} {v : α} {m d f : Nat}
    {le : Option String} (h : fn a = .ok v) :
    retryAux fn m d a (f + 1) le = ⟨.ok v, 1, []⟩ := by
  simp [retryAux, h]

theorem retryAux_err_cont {α : Type} {fn : Nat → Except String α} {a : Nat} {ev : String}
    {m d f : Nat} {le : Option String} (h : fn a = .error ev) (hlt : a < m - 1) :
    retryAux fn m d a (f + 1) le =
      ⟨(retryAux fn m d (a + 1) f (some ev)).result,
       (retryAux fn m d (a + 1) f (some ev)).calls + 1,
       d * 2 ^ a :: (retryAux fn m d (a + 1) f (some ev)).delays⟩ := by
  simp [retryAux, h, hlt]

theorem retryAux_err_last {α : Type} {fn : Nat → Except String α} {a : Nat} {ev : String}
    {m d f : Nat} {le : Option String} (h : fn a = .error ev) (hnlt : ¬ a < m - 1) :
    retryAux fn m d a (f + 1) le =
      ⟨(retryAux fn m d (a + 1) f (some ev)).result,
       (retryAux fn m d (a + 1) f (some ev)).calls + 1,
       (retryAux fn m d (a + 1) f (some ev)).delays⟩ := by
  simp [retryAux, h, hnlt]

theorem delay_shift (d a k : Nat) :
    (List.range (k + 1)).map (fun j => d * 2 ^ (a + j)) =
      d * 2 ^ a :: (List.range k).map (fun j => d * 2 ^ (a + 1 + j)) := by
  have hfun : ((fun j => d * 2 ^ (a + j)) ∘ Nat.succ) = (fun j => d * 2 ^ (a + 1 + j)) := by
    funext j
    simp only [Function.comp_apply, Nat.succ_eq_add_one]
    rw [show a + (j + 1) = a + 1 + j by omega]
  rw [List.range_succ_eq_map, List.map_cons, List.map_map, hfun]
  norm_num

/-- A run that fails on attempts `a, …, a + k - 1` and succeeds on attempt
`a + k` returns that success after `k + 1` invocations, sleeping
`d * 2 ^ j` after the failed attempt `j`. -/
theorem retryAux_success {α : Type} (fn : Nat → Except String α) (m d : Nat)
    (e : Nat → String) (v : α) :
    ∀ (k a : Nat) (le : Option String), a + k + 1 ≤ m →
      (∀ j, j < k → fn (a + j) = .error (e (a + j))) →
      fn (a + k) = .ok v →
      retryAux fn m d a (m - a) le =
        ⟨.ok v, k + 1, (List.range k).map (fun j => d * 2 ^ (a + j))⟩ := by
  intro k
  induction k with
  | zero =>
    intro a le ha hf hs
    obtain ⟨f, hfeq⟩ : ∃ f, m - a = f + 1 := ⟨m - a - 1, by omega⟩
    rw [hfeq, retryAux_ok_step (by simpa using hs)]
    simp
  | succ k ih =>
    intro a le ha hf hs
    obtain ⟨f, hfeq⟩ : ∃ f, m - a = f + 1 := ⟨m - a - 1, by omega⟩
    have hfa : fn a = .error (e a) := by simpa using hf 0 (Nat.succ_pos k)
    have hlt : a < m - 1 := by omega
    have hfm : f = m - (a + 1) := by omega
    rw [hfeq, retryAux_err_cont hfa hlt, hfm,
      ih (a + 1) (some (e a)) (by omega)
        (fun j hj => by
          have := hf (j + 1) (by omega)
          rw [show a + 1 + j = a + (j + 1) by omega]
          exact this)
        (by rw [show a + 1 + k = a + (k + 1) by omega]; exact hs),
      delay_shift]

/-- A run whose `f + 1` remaining attempts all fail throws the error of
the last attempt (attempt `m - 1`) after `f + 1` invocations. -/
theorem retryAux_allfail {α : Type} (fn : Nat → Except String α) (m d : Nat)
    (e : Nat → String) :
    ∀ (f a : Nat) (le : Option String), a + f + 1 = m →
      (∀ j, j < f + 1 → fn (a + j) = .error (e (a + j))) →
      retryAux fn m d a (f + 1) le =
        ⟨.error (some (e (m - 1))), f + 1, (List.range f).map (fun j => d * 2 ^ (a + j))⟩ := by
  intro f
  induction f with
  | zero =>
    intro a le ha hf
    have hfa : fn a = .error (e a) := by simpa using hf 0 Nat.one_pos
    have hnlt : ¬ a < m - 1 := by omega
    rw [retryAux_err_last hfa hnlt]
    simp only [retryAux]
    have : a = m - 1 := by omega
    rw [this]
    simp
  | succ f ih =>
    intro a le ha hf
    have hfa : fn a = .error (e a) := by simpa using hf 0 (Nat.succ_pos _)
    have hlt : a < m - 1 := by omega
    rw [retryAux_err_cont hfa hlt,
      ih (a + 1) (some (e a)) (by omega)
        (fun j hj => by
          have := hf (j + 1) (by omega)
          rw [show a + 1 + j = a + (j + 1) by omega]
          exact this),
      delay_shift]

theorem geom_sum_list (d : Nat) :
    ∀ n, ((List.range n).map (fun j => d * 2 ^ j)).sum = d * (2 ^ n - 1) := by
  intro n
  induction n with
  | zero => simp
  | succ n ih =>
    rw [List.range_succ, List.map_append, List.sum_append, ih]
    simp only [List.map_cons, List.map_nil, List.sum_cons, List.sum_nil, Nat.add_zero]
    obtain ⟨y, hy⟩ : ∃ y, 2 ^ n = y + 1 :=
      ⟨2 ^ n - 1, by have := Nat.one_le_two_pow (n := n); omega⟩
    rw [pow_succ, hy]
    simp only [Nat.add_sub_cancel]
    have h2 : (y + 1) * 2 - 1 = 2 * y + 1 := by omega
    rw [h2]
    ring

/-- C2: for `1 ≤ k ≤ m`, if the operation fails on the first `k - 1`
attempts then succeeds on attempt `k`, `retryWithBackoff` invokes it
exactly `k` times, sleeps `d * 2 ^ (j - 1)` ms after the `j`-th failure
(so the `j`-th entry of the delay list, 1-indexed, is `d * 2 ^ (j - 1)`,
for a total of `d * (1 + 2 + … + 2 ^ (k - 2)) = d * (2 ^ (k - 1) - 1)`),
and returns the success with no further invocations; if all `m = k`
attempts fail, the operation is invoked exactly `m` times and the error
thrown is the one of the `m`-th attempt. -/
theorem claim_C2 {α : Type} (fn : Nat → Except String α) (e : Nat → String) (v : α)
    (m d k : Nat) (hk1 : 1 ≤ k) (hkm : k ≤ m)
    (hfail : ∀ j, j < k - 1 → fn j = .error (e j)) :
    (fn (k - 1) = .ok v →
      retryWithBackoff fn m d =
        ⟨.ok v, k, (List.range (k - 1)).map (fun j => d * 2 ^ j)⟩ ∧
      ((List.range (k - 1)).map (fun j => d * 2 ^ j)).sum = d * (2 ^ (k - 1) - 1)) ∧
    (k = m → fn (m - 1) = .error (e (m - 1)) →
      retryWithBackoff fn m d =
        ⟨.error (some (e (m - 1))), m, (List.range (m - 1)).map (fun j => d * 2 ^ j)⟩) := by
  constructor
  · intro hok
    constructor
    · obtain ⟨k', rfl⟩ : ∃ k', k = k' + 1 := ⟨k - 1, by omega⟩
      have := retryAux_success fn m d e v k' 0 none (by omega)
        (fun j hj => by simpa using hfail j (by omega))
        (by simpa using hok)
      unfold retryWithBackoff
      rw [show m - 0 = m by omega] at this
      rw [this]
      simp
    · exact geom_sum_list d (k - 1)
  · rintro rfl hlast
    obtain ⟨f, rfl⟩ : ∃ f, k = f + 1 := ⟨k - 1, by omega⟩
    have := retryAux_allfail fn (f + 1) d e f 0 none (by omega)
      (fun j hj => by
        rcases Nat.lt_or_ge j f with h | h
        · simpa using hfail j (by omega)
        · have : j = f := by omega
          subst this
          simpa using hlast)
    unfold retryWithBackoff
    rw [this]
    simp

/-- Witness for C2: an operation failing on attempts 1 and 2 and
succeeding on attempt 3, run with `maxRetries = 3`, `baseDelay = 1000`:
3 invocations, delays `[1000, 2000]`, total `3000 = 1000 * (2 ^ 2 - 1)`. -/
theorem claim_C2_witness :
    retryWithBackoff
        (fun j => if j = 2 then (.ok 42 : Except String Nat) else .error (toString j)) 3 1000 =
      ⟨.ok 42, 3, [1000, 2000]⟩ ∧ ([1000, 2000] : List Nat).sum = 1000 * (2 ^ 2 - 1) := by
  have h := claim_C2
    (fun j => if j = 2 then (.ok 42 : Except String Nat) else .error (toString j))
    (fun j => toString j) 42 3 1000 3 (by decide) (by decide)
    (fun j hj => by interval_cases j <;> rfl)
  have h2 := h.1 (by rfl)
  refine ⟨?_, by decide⟩
  rw [h2.1]
  rfl

/-! ## The aggregator claims -/

/-- The sub fetch of `getEpisodeStreams` failed (threw after its retries)
or resolved without a nonempty `sources` array. -/
def subUnavailable (scraper : Scraper) (id server : String) : Bool :=
  match (retryWithBackoff (scraper (jsReplaceFirst id "::" "?") server.toLower "sub") 3 1000).result with
  | .error _ => true
  | .ok v => !sourcesNonempty v

/-- C1: for every episode id and every behaviour of the upstream provider,
`getEpisodeStreams` is total and returns `success = true`; and whenever the
sub fetch failed or yielded no sources, the returned sub result has
`link.file = null` and the note is
`"Stream not available - try another server"`. -/
theorem claim_C1 (scraper : Scraper) (id server : String) :
    (getEpisodeStreams scraper id server).success = true ∧
    (subUnavailable scraper id server = true →
      (getEpisodeStreams scraper id server).data.sub.link.file = none ∧
      (getEpisodeStreams scraper id server).note =
        "Stream not available - try another server") := by
  unfold getEpisodeStreams getEpisodeStreamsT subUnavailable
  cases hr : (retryWithBackoff (scraper (jsReplaceFirst id "::" "?") server.toLower "sub") 3 1000).result with
  | error e => simp [hr, fileTruthy]
  | ok v =>
    cases v with
    | none => simp [hr, fileTruthy, sourcesNonempty]
    | some sd =>
      cases hs : sd.sources with
      | none => simp [hr, hs, fileTruthy, sourcesNonempty]
      | some l =>
        cases l with
        | nil => simp [hr, hs, fileTruthy, sourcesNonempty]
        | cons s0 rest => simp [hr, hs, fileTruthy, sourcesNonempty]

/-- Witness for C1: a provider that times out on every attempt still
yields `success = true`, a null sub video URL and the "not available"
note. -/
theorem claim_C1_witness :
    (getEpisodeStreams (fun _ _ _ _ => .error "down") "anime-1::ep=2" "HD-1").success = true ∧
    (getEpisodeStreams (fun _ _ _ _ => .error "down") "anime-1::ep=2" "HD-1").data.sub.link.file = none ∧
    (getEpisodeStreams (fun _ _ _ _ => .error "down") "anime-1::ep=2" "HD-1").note =
      "Stream not available - try another server" := by
  have h := claim_C1 (fun _ _ _ _ => .error "down") "anime-1::ep=2" "HD-1"
  have h2 := h.2 (by decide)
  exact ⟨h.1, h2.1, h2.2⟩

/-- C4: the multi-server operation always returns exactly 3 server
entries, with ids in the fixed order `hd-1, hd-2, hd-3`, for every
behaviour of the provider (so no per-server or per-category failure mix
removes, reorders, or blocks an entry). -/
theorem claim_C4 (scraper : Scraper) (type tvId epid : String) :
    (getEpisodeMultiServer scraper type tvId epid).servers.length = 3 ∧
    (getEpisodeMultiServer scraper type tvId epid).servers.map ServerObj.id =
      ["hd-1", "hd-2", "hd-3"] := by
  simp [getEpisodeMultiServer, serverObjFor]

/-! ## Normalization of the episode id (C5) -/

/-- Whether the list contains two adjacent colons (an occurrence of the
`"::"` pattern). -/
def hasColonPair : List Char → Bool
  | [] => false
  | [_] => false
  | c :: c2 :: cs => (c = ':' && c2 = ':') || hasColonPair (c2 :: cs)

theorem hasColonPair_cons_ne {c : Char} (hc : c ≠ ':') (l : List Char) :
    hasColonPair (c :: l) = hasColonPair l := by
  cases l with
  | nil => rfl
  | cons c2 cs => simp [hasColonPair, hc]

theorem hasColonPair_cons_false {c : Char} {l : List Char}
    (h : hasColonPair (c :: l) = false) : hasColonPair l = false := by
  cases l with
  | nil => rfl
  | cons c2 cs =>
    simp only [hasColonPair, Bool.or_eq_false_iff] at h
    exact h.2

theorem replaceFirst_cons_nomatch {c : Char} {l : List Char}
    (h : prefixConsume [':', ':'] (c :: l) = none) :
    replaceFirstList [':', ':'] ['?'] (c :: l) =
      c :: replaceFirstList [':', ':'] ['?'] l := by
  simp [replaceFirstList, h]

theorem prefixConsume_colon_ne {c : Char} (hc : c ≠ ':') (l : List Char) :
    prefixConsume [':', ':'] (c :: l) = none := by
  simp [prefixConsume, hc]

theorem prefixConsume_colon_snd_ne {c2 : Char} (hc2 : c2 ≠ ':') (l : List Char) :
    prefixConsume [':', ':'] (':' :: c2 :: l) = none := by
  simp [prefixConsume, hc2]

/-- Replacing the first `"::"` in `a ++ "::" ++ b` hits exactly the
separator when `a` contains no colon pair and does not end in a colon. -/
theorem replaceFirst_boundary :
    ∀ (a : List Char), hasColonPair a = false → a.getLast? ≠ some ':' →
      ∀ b, replaceFirstList [':', ':'] ['?'] (a ++ ':' :: ':' :: b) = a ++ '?' :: b := by
  intro a
  induction a with
  | nil => intro _ _ b; simp [replaceFirstList, prefixConsume]
  | cons c a' ih =>
    intro h1 h2 b
    by_cases hc : c = ':'
    · subst hc
      cases a' with
      | nil => simp at h2
      | cons c2 a'' =>
        have hc2 : c2 ≠ ':' := by
          simp only [hasColonPair, Bool.or_eq_false_iff, Bool.and_eq_false_iff] at h1
          rcases h1.1 with h | h
          · simp at h
          · intro hx; rw [hx] at h; simp at h
        have hrec := ih (hasColonPair_cons_false h1)
          (by rw [List.getLast?_cons_cons] at h2; exact h2) b
        simp only [List.cons_append] at hrec ⊢
        rw [replaceFirst_cons_nomatch (prefixConsume_colon_snd_ne hc2 _), hrec]
    · have hrec := ih (hasColonPair_cons_false h1)
        (by
          cases a' with
          | nil => simp
          | cons x xs => rw [List.getLast?_cons_cons] at h2; exact h2) b
      simp only [List.cons_append] at hrec ⊢
      rw [replaceFirst_cons_nomatch (prefixConsume_colon_ne hc _), hrec]

/-- A list without a colon pair is untouched by the `"::"` replacement. -/
theorem replaceFirst_nopair :
    ∀ a, hasColonPair a = false → replaceFirstList [':', ':'] ['?'] a = a := by
  intro a
  induction a with
  | nil => intro _; simp [replaceFirstList]
  | cons c a' ih =>
    intro h1
    have hrec := ih (hasColonPair_cons_false h1)
    by_cases hc : c = ':'
    · subst hc
      cases a' with
      | nil => simp [replaceFirstList, prefixConsume]
      | cons c2 a'' =>
        have hc2 : c2 ≠ ':' := by
          simp only [hasColonPair, Bool.or_eq_false_iff, Bool.and_eq_false_iff] at h1
          rcases h1.1 with h | h
          · simp at h
          · intro hx; rw [hx] at h; simp at h
        rw [replaceFirst_cons_nomatch (prefixConsume_colon_snd_ne hc2 _), hrec]
    · rw [replaceFirst_cons_nomatch (prefixConsume_colon_ne hc _), hrec]

theorem hasColonPair_append :
    ∀ (a b : List Char), hasColonPair a = false → hasColonPair b = false →
      ¬(a.getLast? = some ':' ∧ b.head? = some ':') →
      hasColonPair (a ++ b) = false := by
  intro a
  induction a with
  | nil => intro b _ hb _; simpa using hb
  | cons c a' ih =>
    intro b h1 hb h3
    cases a' with
    | nil =>
      cases b with
      | nil => rfl
      | cons b0 b' =>
        simp only [List.cons_append, List.nil_append, hasColonPair, Bool.or_eq_false_iff]
        constructor
        · by_cases hcb : c = ':'
          · subst hcb
            have : b0 ≠ ':' := fun hx => h3 ⟨by simp, by simp [hx]⟩
            simp [this]
          · simp [hcb]
        · exact hb
    | cons c2 a'' =>
      have hrec := ih b (hasColonPair_cons_false h1)
        hb (fun ⟨hx, hy⟩ => h3 ⟨by rw [List.getLast?_cons_cons]; exact hx, hy⟩)
      simp only [List.cons_append, hasColonPair, Bool.or_eq_false_iff] at hrec ⊢
      constructor
      · simp only [hasColonPair, Bool.or_eq_false_iff] at h1
        exact h1.1
      · exact hrec

/-- Two episode ids with the same normalization produce the same
aggregated run, since the normalized id is the only use of the input id. -/
theorem getEpisodeStreamsT_norm {id1 id2 : String} (scraper : Scraper) (server : String)
    (h : jsReplaceFirst id1 "::" "?" = jsReplaceFirst id2 "::" "?") :
    getEpisodeStreamsT scraper id1 server = getEpisodeStreamsT scraper id2 server := by
  unfold getEpisodeStreamsT
  rw [h]

/-- C5 (amended): for an anime id `X` whose characters contain no `"::"`
and that does not end in `':'`, and an episode number `N` containing no
`"::"`, the two accepted forms `X ++ "::ep=" ++ N` and `X ++ "?ep=" ++ N`
normalize (first `"::"` replaced by `"?"`) to the same canonical id, and
therefore yield the same run against every provider behaviour. -/
theorem claim_C5 (X N : String)
    (hX : hasColonPair X.data = false)
    (hXlast : X.data.getLast? ≠ some ':')
    (hN : hasColonPair N.data = false) :
    jsReplaceFirst (X ++ "::ep=" ++ N) "::" "?" = X ++ "?ep=" ++ N ∧
    jsReplaceFirst (X ++ "?ep=" ++ N) "::" "?" = X ++ "?ep=" ++ N ∧
    ∀ (scraper : Scraper) (server : String),
      getEpisodeStreamsT scraper (X ++ "::ep=" ++ N) server =
        getEpisodeStreamsT scraper (X ++ "?ep=" ++ N) server := by
  have hd1 : (X ++ "::ep=" ++ N).data =
      X.data ++ ':' :: ':' :: ('e' :: 'p' :: '=' :: N.data) := by
    rw [String.data_append, String.data_append]
    rw [show ("::ep=" : String).data = [':', ':', 'e', 'p', '='] from rfl]
    simp
  have hd2 : (X ++ "?ep=" ++ N).data =
      X.data ++ '?' :: 'e' :: 'p' :: '=' :: N.data := by
    rw [String.data_append, String.data_append]
    rw [show ("?ep=" : String).data = ['?', 'e', 'p', '='] from rfl]
    simp
  have h1 : jsReplaceFirst (X ++ "::ep=" ++ N) "::" "?" = X ++ "?ep=" ++ N := by
    apply String.ext
    show replaceFirstList [':', ':'] ['?'] (X ++ "::ep=" ++ N).data = _
    rw [hd1, hd2, replaceFirst_boundary X.data hX hXlast]
  have hpair2 : hasColonPair (X.data ++ '?' :: 'e' :: 'p' :: '=' :: N.data) = false := by
    apply hasColonPair_append X.data _ hX
    · rw [hasColonPair_cons_ne (by decide), hasColonPair_cons_ne (by decide),
        hasColonPair_cons_ne (by decide)]
      cases hnd : N.data with
      | nil => rfl
      | cons n0 ns =>
        rw [hasColonPair_cons_ne (by decide)]
        rw [← hnd]
        exact hN
    · rintro ⟨_, hy⟩
      simp at hy
  have h2 : jsReplaceFirst (X ++ "?ep=" ++ N) "::" "?" = X ++ "?ep=" ++ N := by
    apply String.ext
    show replaceFirstList [':', ':'] ['?'] (X ++ "?ep=" ++ N).data = _
    rw [hd2, replaceFirst_nopair _ hpair2]
  exact ⟨h1, h2, fun scraper server =>
    getEpisodeStreamsT_norm scraper server (h1.trans h2.symm)⟩

/-- Counterexample to C5 as stated: for the anime id `"a::b"` (which
itself contains `"::"`) the two surface forms do not normalize to the same
canonical id, because `replace` rewrites only the first occurrence:
`"a::b::ep=1" ↦ "a?b::ep=1"` but `"a::b?ep=1" ↦ "a?b?ep=1"`. -/
theorem claim_C5_counterexample :
    jsReplaceFirst "a::b::ep=1" "::" "?" ≠ jsReplaceFirst "a::b?ep=1" "::" "?" := by
  decide

/-- Witness for C5 at `X = "anime-1"`, `N = "2"`. -/
theorem claim_C5_witness :
    jsReplaceFirst ("anime-1" ++ "::ep=" ++ "2") "::" "?" = "anime-1" ++ "?ep=" ++ "2" ∧
    jsReplaceFirst ("anime-1" ++ "?ep=" ++ "2") "::" "?" = "anime-1" ++ "?ep=" ++ "2" ∧
    getEpisodeStreamsT (fun _ _ _ _ => .error "down") ("anime-1" ++ "::ep=" ++ "2") "hd-1" =
      getEpisodeStreamsT (fun _ _ _ _ => .error "down") ("anime-1" ++ "?ep=" ++ "2") "hd-1" := by
  have h := claim_C5 "anime-1" "2" (by decide) (by decide) (by decide)
  exact ⟨h.1, h.2.1, h.2.2 _ "hd-1"⟩

/-- C6 (amended): the note is a pure function of the JS truthiness of the
sub video URL — `"Stream loaded"` exactly when `link.file` is a non-empty
string, `"Stream not available - try another server"` otherwise (null or
empty string), and no other value occurs. -/
theorem claim_C6 (scraper : Scraper) (id server : String) :
    ((getEpisodeStreams scraper id server).note = "Stream loaded" ∨
      (getEpisodeStreams scraper id server).note = "Stream not available - try another server") ∧
    ((getEpisodeStreams scraper id server).note = "Stream loaded" ↔
      fileTruthy (getEpisodeStreams scraper id server).data.sub.link.file = true) := by
  unfold getEpisodeStreams getEpisodeStreamsT
  cases hr : (retryWithBackoff (scraper (jsReplaceFirst id "::" "?") server.toLower "sub") 3 1000).result with
  | error e => simp [hr, fileTruthy]
  | ok v =>
    cases v with
    | none => simp [hr, fileTruthy]
    | some sd =>
      cases hs : sd.sources with
      | none => simp [hr, hs, fileTruthy]
      | some l =>
        cases l with
        | nil => simp [hr, hs, fileTruthy]
        | cons s0 rest =>
          by_cases hu : s0.url = "" <;> simp [hr, hs, fileTruthy, hu]

/-- Counterexample to C6 as stated: when the provider resolves the sub
fetch with one source whose `url` is the empty string, `link.file` is the
empty string — non-null — yet the note is the "not available" one, because
the code tests JS truthiness, not null-ness. -/
theorem claim_C6_counterexample :
    (getEpisodeStreams (fun _ _ _ _ => .ok (some ⟨some [⟨""⟩], none, none⟩))
        "a?ep=1" "hd-1").data.sub.link.file = some "" ∧
    some "" ≠ (none : Option String) ∧
    (getEpisodeStreams (fun _ _ _ _ => .ok (some ⟨some [⟨""⟩], none, none⟩))
        "a?ep=1" "hd-1").note = "Stream not available - try another server" := by
  exact ⟨rfl, by simp, rfl⟩

/-- C7 (amended): the dub fetch is reached only when the sub retry wrapper
resolves — when the sub fetch throws after exhausting its retries, the dub
fetch is skipped entirely (0 provider invocations for `dub`) and `dub`
stays the empty object; when the sub fetch resolves (with or without
sources), the dub fetch is attempted, and any dub failure is absorbed
silently leaving `dub = {}`. -/
theorem claim_C7 (scraper : Scraper) (id server : String) :
    (∀ e, (retryWithBackoff (scraper (jsReplaceFirst id "::" "?") server.toLower "sub") 3 1000).result = .error e →
      (getEpisodeStreamsT scraper id server).dubCalls = 0 ∧
      (getEpisodeStreamsT scraper id server).resp.data.dub = .empty) ∧
    (∀ v, (retryWithBackoff (scraper (jsReplaceFirst id "::" "?") server.toLower "sub") 3 1000).result = .ok v →
      (getEpisodeStreamsT scraper id server).dubCalls =
        (retryWithBackoff (scraper (jsReplaceFirst id "::" "?") server.toLower "dub") 2 500).calls) ∧
    (∀ e, (retryWithBackoff (scraper (jsReplaceFirst id "::" "?") server.toLower "dub") 2 500).result = .error e →
      (getEpisodeStreamsT scraper id server).resp.data.dub = .empty) := by
  unfold getEpisodeStreamsT
  cases hr : (retryWithBackoff (scraper (jsReplaceFirst id "::" "?") server.toLower "sub") 3 1000).result with
  | error e => simp [hr]
  | ok v =>
    cases hd : (retryWithBackoff (scraper (jsReplaceFirst id "::" "?") server.toLower "dub") 2 500).result with
    | error e2 => simp [hr, hd]
    | ok d =>
      cases d with
      | none => simp [hr, hd]
      | some dd =>
        cases hs : dd.sources with
        | none => simp [hr, hd, hs]
        | some l =>
          cases l with
          | nil => simp [hr, hd, hs]
          | cons s0 rest => simp [hr, hd, hs]

/-- Counterexample to C7 as stated: with a provider that times out on
every attempt, the sub retry wrapper throws after its 3 invocations and
the dub fetch is never performed (0 provider invocations for `dub`), so
the dub fetch is not independent of the sub fetch's outcome. -/
theorem claim_C7_counterexample :
    (getEpisodeStreamsT (fun _ _ _ _ => .error "timeout") "a?ep=1" "hd-1").subCalls = 3 ∧
    (getEpisodeStreamsT (fun _ _ _ _ => .error "timeout") "a?ep=1" "hd-1").dubCalls = 0 :=
  ⟨rfl, rfl⟩

/-- Witness for C7: a provider that resolves the sub fetch but rejects
every dub attempt — the dub fetch is invoked twice (its retry budget) and
its failure is absorbed, leaving `dub = {}`. -/
theorem claim_C7_witness :
    (getEpisodeStreamsT
        (fun _ _ cat _ => if cat = "sub" then .ok (some ⟨some [⟨"u"⟩], none, none⟩)
          else .error "no dub") "a?ep=1" "hd-1").dubCalls = 2 ∧
    (getEpisodeStreamsT
        (fun _ _ cat _ => if cat = "sub" then .ok (some ⟨some [⟨"u"⟩], none, none⟩)
          else .error "no dub") "a?ep=1" "hd-1").resp.data.dub = .empty := by
  have h := claim_C7
    (fun _ _ cat _ => if cat = "sub" then .ok (some ⟨some [⟨"u"⟩], none, none⟩)
      else .error "no dub") "a?ep=1" "hd-1"
  exact ⟨(h.2.1 _ rfl).trans rfl, h.2.2 _ rfl⟩

/-! ## Captions map construction (C10) -/

/-- Lookup in the captions object by key. -/
def lookupCap : CapMap → String → Option String
  | [], _ => none
  | (k, v) :: rest, label => if k = label then some v else lookupCap rest label

theorem lookupCap_insert_self (m : CapMap) (k v : String) :
    lookupCap (insertCap m k v) k = some v := by
  induction m with
  | nil => simp [insertCap, lookupCap]
  | cons p rest ih =>
    obtain ⟨k', v'⟩ := p
    by_cases hk : k' = k
    · subst hk; simp [insertCap, lookupCap]
    · simp [insertCap, lookupCap, hk, ih]

theorem lookupCap_insert_other (m : CapMap) (k v label : String) (hk : k ≠ label) :
    lookupCap (insertCap m k v) label = lookupCap m label := by
  induction m with
  | nil => simp [insertCap, lookupCap, hk]
  | cons p rest ih =>
    obtain ⟨k', v'⟩ := p
    by_cases hk' : k' = k
    · subst hk'; simp [insertCap, lookupCap, hk]
    · simp only [insertCap, if_neg hk', lookupCap]
      by_cases hl : k' = label
      · simp [hl]
      · simp [hl, ih]

/-- The insertion guard of the captions loop:
`t.lang && t.lang !== 'thumbnails' && t.url`. -/
def capGuard (t : RawTrack) : Bool :=
  t.lang ≠ "" && t.lang ≠ "thumbnails" && t.url ≠ ""

theorem myGetLast_cons {α : Type} (y : α) (l : List α) :
    (y :: l).getLast? = match l.getLast? with
      | some u => some u
      | none => some y := by
  cases l with
  | nil => rfl
  | cons z l' =>
    rw [List.getLast?_cons_cons]
    cases h : (z :: l').getLast? with
    | none => exact absurd h (by simp)
    | some u => rfl

/-- The captions fold, characterized: looking up a label returns the url
of the last track with that label passing the insertion guard. -/
theorem buildCaptions_fold (label : String) :
    ∀ (ts : List RawTrack) (m : CapMap),
      lookupCap (ts.foldl
        (fun m t => if t.lang ≠ "" && t.lang ≠ "thumbnails" && t.url ≠ "" then
          insertCap m t.lang t.url else m) m) label =
      match ((ts.filter fun t => t.lang = label && capGuard t).map RawTrack.url).getLast? with
      | some u => some u
      | none => lookupCap m label := by
  intro ts
  induction ts with
  | nil => intro m; simp
  | cons t ts ih =>
    intro m
    by_cases hg : capGuard t
    · have hg' := hg
      simp only [capGuard] at hg'
      by_cases hl : t.lang = label
      · have hft : (decide (t.lang = label) && capGuard t) = true := by simp [hl, hg]
        simp only [List.foldl_cons, List.filter_cons, hft, if_true, hg', ite_true]
        rw [ih, List.map_cons, myGetLast_cons]
        cases hrest : ((ts.filter fun t => decide (t.lang = label) && capGuard t).map RawTrack.url).getLast? with
        | some u => simp [hrest]
        | none => simp [hrest, ← hl, lookupCap_insert_self]
      · have hft : (decide (t.lang = label) && capGuard t) = false := by simp [hl]
        simp only [List.foldl_cons, List.filter_cons, hft, if_false, hg', ite_true,
          Bool.false_eq_true]
        rw [ih]
        cases hrest : ((ts.filter fun t => decide (t.lang = label) && capGuard t).map RawTrack.url).getLast? with
        | some u => simp [hrest]
        | none => simp [hrest, lookupCap_insert_other m t.lang t.url label hl]
    · have hg' : ¬((decide (t.lang ≠ "") && decide (t.lang ≠ "thumbnails") && decide (t.url ≠ "")) = true) := by
        simpa [capGuard] using hg
      have hft : (decide (t.lang = label) && capGuard t) = false := by
        simp only [Bool.and_eq_false_iff]
        right
        simpa using hg
      simp only [List.foldl_cons, List.filter_cons, hft, if_false, hg', ite_false,
        Bool.false_eq_true]
      exact ih m

/-- C10 (amended): the captions map inserts `label ↦ url` for every track
whose label is present and not the thumbnails marker and whose url is
present, iterating in order with later duplicates overwriting — so a
lookup returns the url of the last such track with that label; the
spec's example `[(English, u1), (thumbnails, u2)] ↦ \x7bEnglish: u1\x7d`
holds, and duplicate labels overwrite. -/
theorem claim_C10 (tracks : List RawTrack) (label u1 u2 : String)
    (hu1 : u1 ≠ "") (hu2 : u2 ≠ "") :
    lookupCap (buildCaptions tracks) label =
      ((tracks.filter fun t => t.lang = label && capGuard t).map RawTrack.url).getLast? ∧
    buildCaptions [⟨u1, "English", none⟩, ⟨u2, "thumbnails", none⟩] = [("English", u1)] ∧
    lookupCap (buildCaptions [⟨u1, "English", none⟩, ⟨u2, "English", none⟩]) "English" =
      some u2 := by
  refine ⟨?_, ?_, ?_⟩
  · unfold buildCaptions
    rw [buildCaptions_fold label tracks]
    cases hr : ((tracks.filter fun t => decide (t.lang = label) && capGuard t).map RawTrack.url).getLast? with
    | some u => rfl
    | none => rfl
  · simp [buildCaptions, insertCap, hu1]
  · simp [buildCaptions, insertCap, lookupCap, hu1, hu2]

/-- Counterexample to C10 as stated: a non-thumbnails track whose `url` is
empty (JS-falsy) is also skipped, so `label ↦ url` is not inserted for
every non-thumbnails track. -/
theorem claim_C10_counterexample :
    buildCaptions [⟨"", "English", none⟩] = [] ∧
    ([] : CapMap) ≠ [("English", "")] := by
  exact ⟨rfl, by intro h; exact List.noConfusion h⟩

/-- Witness for C10 at concrete tracks. -/
theorem claim_C10_witness :
    lookupCap (buildCaptions [⟨"u1", "English", none⟩, ⟨"u2", "thumbnails", none⟩]) "English" =
      some "u1" ∧
    buildCaptions [⟨"u1", "English", none⟩, ⟨"u2", "thumbnails", none⟩] = [("English", "u1")] ∧
    lookupCap (buildCaptions [⟨"u1", "English", none⟩, ⟨"u2", "English", none⟩]) "English" =
      some "u2" := by
  have h := claim_C10 [⟨"u1", "English", none⟩, ⟨"u2", "thumbnails", none⟩] "English" "u1" "u2"
    (by decide) (by decide)
  exact ⟨by rw [h.1]; rfl, h.2.1, h.2.2⟩

/-! ## Rewriter claims (C3, C8) -/

theorem prefixList_head {p : Char} {ps l : List Char} (h : prefixList (p :: ps) l = true) :
    ∃ t, l = p :: t := by
  cases l with
  | nil => simp [prefixList, prefixConsume] at h
  | cons c cs =>
    by_cases hc : c = p
    · exact ⟨cs, by rw [hc]⟩
    · simp [prefixList, prefixConsume, hc] at h

/-- C3 (amended): after the optional master-playlist codec stripping, the
line is trimmed; when the trimmed line `t` is non-blank, not a comment and
not already proxied, the output is `'/proxy?url=' ++ encodeURIComponent`
of `t` itself when `t` begins with `http://` or `https://`, else of
`baseUrl ++ t`; in particular, body line `200p/index.m3u8` under target
`http://host/path/master.m3u8` rewrites to
`/proxy?url=http%3A%2F%2Fhost%2Fpath%2F200p%2Findex.m3u8`. -/
theorem claim_C3 (baseUrl : String) (isMaster : Bool) (line t : String)
    (hdef : t = jsTrim (if isMaster && jsIncludes line "CODECS=" then (⟨stripCodecsList line.data⟩ : String) else line))
    (ht : t ≠ "") (hc : jsStartsWith t "#" = false) (hp : jsStartsWith t "/proxy?url=" = false) :
    processLine baseUrl isMaster line =
      "/proxy?url=" ++ encodeURIComponent
        (if jsStartsWith t "http://" || jsStartsWith t "https://" then t
         else baseUrl ++ t) ∧
    jsBaseUrl "http://host/path/master.m3u8" = "http://host/path/" ∧
    processLine "http://host/path/" false "200p/index.m3u8" =
      "/proxy?url=" ++ encodeURIComponent ("http://host/path/" ++ "200p/index.m3u8") ∧
    "/proxy?url=" ++ encodeURIComponent ("http://host/path/" ++ "200p/index.m3u8") =
      "/proxy?url=http%3A%2F%2Fhost%2Fpath%2F200p%2Findex.m3u8" := by
  refine ⟨?_, by decide, by decide, by decide⟩
  simp only [processLine, ← hdef]
  simp only [ht, hc, hp]
  by_cases h1 : jsStartsWith t "http://" = true
  · simp [h1]
    exact fun h => absurd h ht
  · by_cases h2 : jsStartsWith t "https://" = true
    · simp [h1, h2]
      exact fun h => absurd h ht
    · simp [h1, h2]
      exact fun h => absurd h ht

/-- Counterexample to C3 as stated: the line `" 200p/index.m3u8"`, which
begins with a space, is resolved against `baseUrl` by its trimmed form —
the output percent-encodes `http://host/path/200p/index.m3u8`, not
`baseUrl` concatenated with the raw line (which would keep the space). -/
theorem claim_C3_counterexample :
    processLine "http://host/path/" false " 200p/index.m3u8" =
      "/proxy?url=http%3A%2F%2Fhost%2Fpath%2F200p%2Findex.m3u8" ∧
    processLine "http://host/path/" false " 200p/index.m3u8" ≠
      "/proxy?url=" ++ encodeURIComponent ("http://host/path/" ++ " 200p/index.m3u8") := by
  constructor
  · rfl
  · decide

/-- Witness for C3 at the spec's concrete relative child reference. -/
theorem claim_C3_witness :
    processLine "http://host/path/" false "200p/index.m3u8" =
      "/proxy?url=" ++ encodeURIComponent
        (if jsStartsWith (jsTrim "200p/index.m3u8") "http://" ||
            jsStartsWith (jsTrim "200p/index.m3u8") "https://" then jsTrim "200p/index.m3u8"
         else "http://host/path/" ++ jsTrim "200p/index.m3u8") := by
  have h := claim_C3 "http://host/path/" false "200p/index.m3u8" (jsTrim "200p/index.m3u8")
    (by decide) (by decide) (by decide) (by decide)
  exact h.1

/-- C8 (amended): a line with no surrounding whitespace that begins with
`/proxy?url=` and is not subject to codec stripping (not a master
playlist, or no `CODECS=` occurrence in the line) is returned unchanged —
which holds for every line the rewriter itself outputs. -/
theorem claim_C8 (baseUrl : String) (isMaster : Bool) (line : String)
    (htrim : jsTrim line = line)
    (hpre : jsStartsWith line "/proxy?url=" = true)
    (hcod : isMaster = false ∨ jsIncludes line "CODECS=" = false) :
    processLine baseUrl isMaster line = line := by
  have hdata : ∃ t, line.data = '/' :: t := by
    unfold jsStartsWith at hpre
    rw [show ("/proxy?url=" : String).data = '/' :: ("proxy?url=" : String).data from rfl] at hpre
    exact prefixList_head hpre
  obtain ⟨t, ht⟩ := hdata
  have hne : line ≠ "" := by
    intro h
    rw [h] at ht
    simp at ht
  have hhash : jsStartsWith line "#" = false := by
    unfold jsStartsWith
    rw [show ("#" : String).data = ['#'] from rfl, ht]
    simp [prefixList, prefixConsume]
  have hpl : (if isMaster && jsIncludes line "CODECS=" then (⟨stripCodecsList line.data⟩ : String) else line) = line := by
    rcases hcod with h | h
    · simp [h]
    · simp [h]
  simp only [processLine, hpl, htrim, hhash, hne, hpre]
  simp [hne]

/-- Counterexample to C8 as stated: under `isMaster`, a line that begins
with the proxy prefix but contains a codec attribute is altered by the
codec stripping that runs before the prefix check. -/
theorem claim_C8_counterexample :
    processLine "" true "/proxy?url=a,CODECS=\"x\"" = "/proxy?url=a" ∧
    ("/proxy?url=a" : String) ≠ "/proxy?url=a,CODECS=\"x\"" := by
  constructor
  · rfl
  · decide

/-- Witness for C8: an already-proxied reference passes through
untouched, also under `isMaster`. -/
theorem claim_C8_witness :
    processLine "http://h/" true "/proxy?url=abc" = "/proxy?url=abc" := by
  exact claim_C8 "http://h/" true "/proxy?url=abc" (by decide) (by decide) (Or.inr (by decide))

/-! ## Master-playlist codec stripping (C9)

Lemmas about the two fueled global-replace scans: fuel invariance, the
identity on match-free input, scanning past a match-free prefix, and the
effect of one well-formed `,CODECS="…"` occurrence. -/

theorem prefixConsume_self_append : ∀ (p r : List Char), prefixConsume p (p ++ r) = some r := by
  intro p
  induction p with
  | nil => intro r; rfl
  | cons c ps ih => intro r; simp [prefixConsume, ih]

theorem prefixConsume_length : ∀ (p l r : List Char), prefixConsume p l = some r →
    l.length = p.length + r.length := by
  intro p
  induction p with
  | nil => intro l r h; simp [prefixConsume] at h; simp [h]
  | cons c ps ih =>
    intro l r h
    cases l with
    | nil => simp [prefixConsume] at h
    | cons x xs =>
      by_cases hx : x = c
      · simp only [prefixConsume, if_pos hx] at h
        have := ih xs r h
        simp [this]
        omega
      · simp [prefixConsume, hx] at h

theorem prefixConsume_eq_none {p l : List Char} (h : prefixList p l = false) :
    prefixConsume p l = none := by
  unfold prefixList at h
  cases hc : prefixConsume p l with
  | none => rfl
  | some r => rw [hc] at h; simp at h

theorem dropThroughQuote_length : ∀ (l r : List Char), dropThroughQuote l = some r →
    r.length < l.length := by
  intro l
  induction l with
  | nil => intro r h; simp [dropThroughQuote] at h
  | cons c cs ih =>
    intro r h
    by_cases hc : c = '"'
    · simp only [dropThroughQuote, if_pos hc] at h
      obtain rfl := Option.some.inj h
      simp
    · simp only [dropThroughQuote, if_neg hc] at h
      have := ih r h
      simp
      omega

theorem dropThroughQuote_append : ∀ (v s : List Char), v.contains '"' = false →
    dropThroughQuote (v ++ '"' :: s) = some s := by
  intro v
  induction v with
  | nil => intro s _; simp [dropThroughQuote]
  | cons c cs ih =>
    intro s hv
    have hc : c ≠ '"' := by
      intro hcc
      subst hcc
      simp at hv
    have hv' : cs.contains '"' = false := by
      cases hcv : cs.contains '"' with
      | false => rfl
      | true => rw [List.contains_cons, hcv] at hv; simp at hv
    simp only [List.cons_append, dropThroughQuote, if_neg hc]
    exact ih s hv'

theorem matchCommaCodecs_length {l r : List Char} (h : matchCommaCodecs l = some r) :
    r.length < l.length := by
  unfold matchCommaCodecs at h
  cases hp : prefixConsume ",CODECS=\"".data l with
  | none => simp [hp] at h
  | some rest =>
    simp only [hp] at h
    have h1 := prefixConsume_length _ _ _ hp
    have h2 := dropThroughQuote_length rest r h
    rw [show (",CODECS=\"" : String).data.length = 9 from rfl] at h1
    omega

theorem matchCodecsComma_length {l r : List Char} (h : matchCodecsComma l = some r) :
    r.length < l.length := by
  unfold matchCodecsComma at h
  cases hp : prefixConsume "CODECS=\"".data l with
  | none => simp [hp] at h
  | some rest =>
    simp only [hp] at h
    have h1 := prefixConsume_length _ _ _ hp
    rw [show ("CODECS=\"" : String).data.length = 8 from rfl] at h1
    cases hd : dropThroughQuote rest with
    | none => simp [hd] at h
    | some after =>
      simp only [hd] at h
      have h2 := dropThroughQuote_length rest after hd
      cases after with
      | nil =>
        simp at h
        subst h
        simp at h2 ⊢
        omega
      | cons a0 a' =>
        by_cases ha : a0 = ','
        · subst ha
          simp at h
          subst h
          simp at h2 ⊢
          omega
        · simp [ha] at h
          subst h
          simp at h2 ⊢
          omega

theorem stripAux1_fuel : ∀ (f1 : Nat), ∀ (l : List Char) (f2 : Nat), l.length ≤ f1 → l.length ≤ f2 →
    stripAux1 f1 l = stripAux1 f2 l := by
  intro f1
  induction f1 with
  | zero =>
    intro l f2 h1 _
    have : l = [] := by
      cases l with
      | nil => rfl
      | cons c cs => simp at h1
    subst this
    cases f2 <;> rfl
  | succ g ih =>
    intro l f2 h1 h2
    cases l with
    | nil => cases f2 <;> rfl
    | cons c cs =>
      obtain ⟨g2, rfl⟩ : ∃ g2, f2 = g2 + 1 := ⟨f2 - 1, by simp at h2; omega⟩
      simp only [stripAux1]
      cases hm : matchCommaCodecs (c :: cs) with
      | some after =>
        have hlen := matchCommaCodecs_length hm
        simp at h1 h2 hlen
        exact ih after g2 (by omega) (by omega)
      | none =>
        simp at h1 h2
        rw [ih cs g2 (by omega) (by omega)]

theorem stripAux2_fuel : ∀ (f1 : Nat), ∀ (l : List Char) (f2 : Nat), l.length ≤ f1 → l.length ≤ f2 →
    stripAux2 f1 l = stripAux2 f2 l := by
  intro f1
  induction f1 with
  | zero =>
    intro l f2 h1 _
    have : l = [] := by
      cases l with
      | nil => rfl
      | cons c cs => simp at h1
    subst this
    cases f2 <;> rfl
  | succ g ih =>
    intro l f2 h1 h2
    cases l with
    | nil => cases f2 <;> rfl
    | cons c cs =>
      obtain ⟨g2, rfl⟩ : ∃ g2, f2 = g2 + 1 := ⟨f2 - 1, by simp at h2; omega⟩
      simp only [stripAux2]
      cases hm : matchCodecsComma (c :: cs) with
      | some after =>
        have hlen := matchCodecsComma_length hm
        simp at h1 h2 hlen
        exact ih after g2 (by omega) (by omega)
      | none =>
        simp at h1 h2
        rw [ih cs g2 (by omega) (by omega)]


theorem prefixList_cons_ne {p c : Char} {ps cs : List Char} (h : c ≠ p) :
    prefixList (p :: ps) (c :: cs) = false := by
  simp [prefixList, prefixConsume, h]

theorem occursList_cons_false {pat : List Char} {c : Char} {cs : List Char}
    (h : occursList pat (c :: cs) = false) :
    prefixList pat (c :: cs) = false ∧ occursList pat cs = false := by
  simp only [occursList, Bool.or_eq_false_iff] at h
  exact h

theorem stripAux1_id : ∀ l, occursList ",CODECS=\"".data l = false → stripAux1 l.length l = l := by
  intro l
  induction l with
  | nil => intro _; rfl
  | cons c cs ih =>
    intro h
    obtain ⟨h1, h2⟩ := occursList_cons_false h
    have hm : matchCommaCodecs (c :: cs) = none := by
      unfold matchCommaCodecs
      rw [prefixConsume_eq_none h1]
    simp only [List.length_cons, stripAux1, hm]
    rw [ih h2]

theorem stripAux2_id : ∀ l, occursList "CODECS=\"".data l = false → stripAux2 l.length l = l := by
  intro l
  induction l with
  | nil => intro _; rfl
  | cons c cs ih =>
    intro h
    obtain ⟨h1, h2⟩ := occursList_cons_false h
    have hm : matchCodecsComma (c :: cs) = none := by
      unfold matchCodecsComma
      rw [prefixConsume_eq_none h1]
    simp only [List.length_cons, stripAux2, hm]
    rw [ih h2]

theorem contains_cons_false {c x : Char} {cs : List Char} (h : (c :: cs).contains x = false) :
    c ≠ x ∧ cs.contains x = false := by
  constructor
  · intro hcc
    subst hcc
    simp at h
  · cases hcv : cs.contains x with
    | false => rfl
    | true => rw [List.contains_cons, hcv] at h; simp at h

theorem stripAux1_skip : ∀ (a b : List Char), a.contains ',' = false →
    stripAux1 (a ++ b).length (a ++ b) = a ++ stripAux1 b.length b := by
  intro a
  induction a with
  | nil => intro b _; rfl
  | cons c a' ih =>
    intro b ha
    obtain ⟨hc, ha'⟩ := contains_cons_false ha
    have hm : matchCommaCodecs (c :: (a' ++ b)) = none := by
      unfold matchCommaCodecs
      rw [prefixConsume_eq_none (by
        rw [show (",CODECS=\"" : String).data = ',' :: ("CODECS=\"" : String).data from rfl]
        exact prefixList_cons_ne hc)]
    simp only [List.cons_append, List.length_cons, stripAux1, List.append_eq, hm]
    rw [ih b ha']

theorem stripAux2_skip : ∀ (a b : List Char), a.contains 'C' = false →
    stripAux2 (a ++ b).length (a ++ b) = a ++ stripAux2 b.length b := by
  intro a
  induction a with
  | nil => intro b _; rfl
  | cons c a' ih =>
    intro b ha
    obtain ⟨hc, ha'⟩ := contains_cons_false ha
    have hm : matchCodecsComma (c :: (a' ++ b)) = none := by
      unfold matchCodecsComma
      rw [prefixConsume_eq_none (by
        rw [show ("CODECS=\"" : String).data = 'C' :: ("ODECS=\"" : String).data from rfl]
        exact prefixList_cons_ne hc)]
    simp only [List.cons_append, List.length_cons, stripAux2, List.append_eq, hm]
    rw [ih b ha']

theorem stripAux1_cons_match {c : Char} {cs after : List Char}
    (hm : matchCommaCodecs (c :: cs) = some after) :
    stripAux1 (c :: cs).length (c :: cs) = stripAux1 after.length after := by
  have hlen := matchCommaCodecs_length hm
  simp only [List.length_cons] at hlen ⊢
  simp only [stripAux1, hm]
  exact stripAux1_fuel cs.length after after.length (by omega) (le_refl _)

theorem occursList_self_append : ∀ (pat r : List Char), occursList pat (pat ++ r) = true := by
  intro pat r
  cases pat with
  | nil =>
    cases r with
    | nil => rfl
    | cons c cs => simp [occursList, prefixList, prefixConsume]
  | cons q qs =>
    have hp : prefixConsume (q :: qs) (q :: (qs ++ r)) = some r := by
      rw [← List.cons_append]
      exact prefixConsume_self_append _ _
    simp [occursList, prefixList, hp]

theorem occursList_cons_of {pat : List Char} (c : Char) {cs : List Char}
    (h : occursList pat cs = true) : occursList pat (c :: cs) = true := by
  simp [occursList, h]

theorem occursList_append_right {pat : List Char} (a : List Char) {b : List Char}
    (h : occursList pat b = true) : occursList pat (a ++ b) = true := by
  induction a with
  | nil => simpa using h
  | cons c a' ih => simpa using occursList_cons_of c ih

theorem dropWhile_append_last {c : Char} (hc : jsWhitespace c = false) :
    ∀ (x : List Char), (x ++ [c]).dropWhile jsWhitespace = x.dropWhile jsWhitespace ++ [c] := by
  intro x
  induction x with
  | nil => simp [List.dropWhile, hc]
  | cons x0 x' ih =>
    cases hx : jsWhitespace x0 with
    | true => simp [List.dropWhile, hx, ih]
    | false => simp [List.dropWhile, hx]

theorem trimList_cons_head {c : Char} (hc : jsWhitespace c = false) (t : List Char) :
    trimList (c :: t) = c :: (t.reverse.dropWhile jsWhitespace).reverse := by
  unfold trimList
  rw [show (c :: t).dropWhile jsWhitespace = c :: t from by simp [List.dropWhile, hc]]
  rw [List.reverse_cons, dropWhile_append_last hc]
  simp



theorem not_mem_of_contains_false {x : Char} : ∀ {l : List Char}, l.contains x = false → x ∉ l := by
  intro l
  induction l with
  | nil => intro _ h; simp at h
  | cons c cs ih =>
    intro h hm
    obtain ⟨hc, hrest⟩ := contains_cons_false h
    rcases List.mem_cons.mp hm with rfl | hm2
    · exact hc rfl
    · exact ih hrest hm2

/-- A successful pattern match on `x ++ b` either consumes all of the
pattern inside `x`, or runs off the end of `x` and continues matching the
pattern's remainder against `b`. -/
theorem prefixConsume_split : ∀ (P x b r : List Char),
    prefixConsume P (x ++ b) = some r →
    (∃ x2, x = P ++ x2) ∨
    (x.length < P.length ∧ prefixConsume (P.drop x.length) b = some r) := by
  intro P
  induction P with
  | nil => intro x b r _; exact Or.inl ⟨x, rfl⟩
  | cons q P' ih =>
    intro x b r h
    cases x with
    | nil =>
      right
      constructor
      · simp
      · simpa using h
    | cons c x' =>
      by_cases hc : c = q
      · simp only [List.cons_append, prefixConsume, if_pos hc] at h
        rcases ih x' b r h with ⟨x2, hx⟩ | ⟨hlen, hpc⟩
        · exact Or.inl ⟨x2, by rw [hx, hc]; rfl⟩
        · exact Or.inr ⟨by simpa using Nat.succ_lt_succ hlen, by simpa using hpc⟩
      · simp [List.cons_append, prefixConsume, hc] at h

/-- The tail of the comma-led codec pattern never begins with a comma, so a
match cannot start inside a prefix and finish in a remainder that begins
with `','`. -/
theorem dropCommaPat_comma_none : ∀ k, 1 ≤ k → k < 9 →
    ∀ b' : List Char,
      prefixConsume ((",CODECS=\"" : String).data.drop k) (',' :: b') = none := by
  intro k h1 h2 b'
  interval_cases k <;> rfl

/-- A quote-free prefix followed by a comma cannot begin a
`,CODECS="…"` match. -/
theorem matchCommaCodecs_cons_comma (c : Char) (a' b' : List Char)
    (hq : (c :: a').contains '"' = false) :
    matchCommaCodecs ((c :: a') ++ ',' :: b') = none := by
  unfold matchCommaCodecs
  cases hp : prefixConsume (",CODECS=\"" : String).data ((c :: a') ++ ',' :: b') with
  | none => simp
  | some rest =>
    exfalso
    rcases prefixConsume_split _ _ _ _ hp with ⟨x2, hx⟩ | ⟨hlen, hpc⟩
    · have hmem : ('"' : Char) ∈ c :: a' := by
        rw [hx]
        exact List.mem_append_left _ (by decide)
      exact not_mem_of_contains_false hq hmem
    · have h9 : (c :: a').length < 9 := by
        rw [show ((",CODECS=\"" : String).data).length = 9 from rfl] at hlen
        exact hlen
      have := dropCommaPat_comma_none (c :: a').length (by simp) h9 b'
      rw [this] at hpc
      exact Option.noConfusion hpc

/-- Scan 1 passes unchanged over any quote-free prefix when the remainder
begins with a comma. -/
theorem stripAux1_skip_quote : ∀ (a b' : List Char), a.contains '"' = false →
    stripAux1 (a ++ ',' :: b').length (a ++ ',' :: b') =
      a ++ stripAux1 (',' :: b').length (',' :: b') := by
  intro a
  induction a with
  | nil => intro b' _; rfl
  | cons c a' ih =>
    intro b' ha
    obtain ⟨_, ha'⟩ := contains_cons_false ha
    have hm := matchCommaCodecs_cons_comma c a' b' ha
    simp only [List.cons_append] at hm ⊢
    simp only [List.length_cons, stripAux1, List.append_eq, hm]
    rw [ih b' ha']
    simp only [List.length_cons, stripAux1]

theorem stripAux2_cons_match {c : Char} {cs after : List Char}
    (hm : matchCodecsComma (c :: cs) = some after) :
    stripAux2 (c :: cs).length (c :: cs) = stripAux2 after.length after := by
  have hlen := matchCodecsComma_length hm
  simp only [List.length_cons] at hlen ⊢
  simp only [stripAux2, hm]
  exact stripAux2_fuel cs.length after after.length (by omega) (le_refl _)

/-- A master-manifest line whose codec-stripped form still begins with
`'#'` is returned as that stripped form: the per-line transform strips,
trims, sees a comment, and passes the stripped line through. -/
theorem processLine_master_comment (baseUrl line : String) {t : List Char}
    (hinc : jsIncludes line "CODECS=" = true)
    (hstrip : stripCodecsList line.data = '#' :: t) :
    processLine baseUrl true line = ⟨'#' :: t⟩ := by
  have htrim : jsTrim (⟨'#' :: t⟩ : String) =
      ⟨'#' :: (t.reverse.dropWhile jsWhitespace).reverse⟩ := by
    unfold jsTrim
    rw [show ((⟨'#' :: t⟩ : String)).data = '#' :: t from rfl, trimList_cons_head (by decide)]
  have hh2 : jsStartsWith (jsTrim (⟨'#' :: t⟩ : String)) "#" = true := by
    rw [htrim]
    unfold jsStartsWith
    rw [show ("#" : String).data = ['#'] from rfl]
    simp [prefixList, prefixConsume]
  simp only [processLine, hinc, Bool.true_and, if_true]
  rw [show (⟨stripCodecsList line.data⟩ : String) = (⟨'#' :: t⟩ : String) from by rw [hstrip]]
  simp only [hh2, Bool.not_true, Bool.and_false, Bool.false_eq_true, if_false]

/-- C9: codec stripping is applied exactly when the whole manifest
contains the stream-variant marker, computed once over the full content.
Without the marker, every comment line — in particular every attribute
line carrying a `CODECS` field — passes through untouched. With the
marker, every comment line carrying a well-formed codec field has exactly
that field removed: a `,CODECS="…"` field (quote-free prefix and value,
no further codec pattern in the remainder) is removed together with its
leading comma, for any attributes before or after it; and a `CODECS="…"`
field without a leading comma (`'C'`-free prefix) is removed by the
second replace together with one trailing comma when present. -/
theorem claim_C9 (content baseUrl : String) :
    (hasStreamInf content = false →
      ∀ l, l ∈ splitLines content → jsStartsWith l "#" = true →
        processLine baseUrl (hasStreamInf content) l = l) ∧
    (hasStreamInf content = true →
      ∀ p v s : String, p.data.head? = some '#' →
        p.data.contains '"' = false →
        v.data.contains '"' = false →
        occursList (",CODECS=\"" : String).data s.data = false →
        occursList ("CODECS=\"" : String).data (p.data ++ s.data) = false →
        processLine baseUrl (hasStreamInf content) (p ++ ",CODECS=\"" ++ v ++ "\"" ++ s) =
          p ++ s) ∧
    (hasStreamInf content = true →
      ∀ p v s : String, p.data.head? = some '#' →
        p.data.contains 'C' = false →
        v.data.contains '"' = false →
        occursList (",CODECS=\"" : String).data (p ++ "CODECS=\"" ++ v ++ "\"" ++ s).data = false →
        occursList ("CODECS=\"" : String).data s.data = false →
        (s.data.head? = some ',' →
          processLine baseUrl (hasStreamInf content) (p ++ "CODECS=\"" ++ v ++ "\"" ++ s) =
            p ++ (⟨s.data.tail⟩ : String)) ∧
        (s.data.head? ≠ some ',' →
          processLine baseUrl (hasStreamInf content) (p ++ "CODECS=\"" ++ v ++ "\"" ++ s) =
            p ++ s)) := by
  refine ⟨?_, ?_, ?_⟩
  · intro hm l _ hhash
    have hdata : ∃ t, l.data = '#' :: t := by
      unfold jsStartsWith at hhash
      rw [show ("#" : String).data = ['#'] from rfl] at hhash
      exact prefixList_head hhash
    obtain ⟨t, ht⟩ := hdata
    have htrim : jsTrim l = ⟨'#' :: (t.reverse.dropWhile jsWhitespace).reverse⟩ := by
      unfold jsTrim
      rw [ht, trimList_cons_head (by decide)]
    have hh2 : jsStartsWith (jsTrim l) "#" = true := by
      rw [htrim]
      unfold jsStartsWith
      rw [show ("#" : String).data = ['#'] from rfl]
      simp [prefixList, prefixConsume]
    simp only [processLine, hm, Bool.false_and, Bool.false_eq_true, if_false]
    simp [hh2]
  · intro hm p v s hphead hpq hv hs1 hps2
    rw [hm]
    obtain ⟨pr, hpr⟩ : ∃ pr, p.data = '#' :: pr := by
      cases hpd : p.data with
      | nil => rw [hpd] at hphead; exact absurd hphead (by simp)
      | cons c rest =>
        rw [hpd] at hphead
        simp only [List.head?_cons, Option.some.injEq] at hphead
        exact ⟨rest, by rw [hphead]⟩
    have hdata : (p ++ ",CODECS=\"" ++ v ++ "\"" ++ s).data =
        p.data ++ ',' :: (("CODECS=\"" : String).data ++ (v.data ++ '"' :: s.data)) := by
      simp only [String.data_append, List.append_assoc]
      rfl
    have hmatch : matchCommaCodecs
        (',' :: (("CODECS=\"" : String).data ++ (v.data ++ '"' :: s.data))) = some s.data := by
      rw [show (',' :: (("CODECS=\"" : String).data ++ (v.data ++ '"' :: s.data))) =
        ((",CODECS=\"" : String).data ++ (v.data ++ '"' :: s.data)) from rfl]
      unfold matchCommaCodecs
      rw [prefixConsume_self_append]
      exact dropThroughQuote_append v.data s.data hv
    have hstep1 : stripAux1 ((p ++ ",CODECS=\"" ++ v ++ "\"" ++ s).data).length
        ((p ++ ",CODECS=\"" ++ v ++ "\"" ++ s).data) = p.data ++ s.data := by
      rw [hdata, stripAux1_skip_quote p.data _ hpq,
        stripAux1_cons_match hmatch, stripAux1_id s.data hs1]
    have hstrip : stripCodecsList ((p ++ ",CODECS=\"" ++ v ++ "\"" ++ s).data) =
        p.data ++ s.data := by
      unfold stripCodecsList
      rw [hstep1, stripAux2_id _ hps2]
    have hinc : jsIncludes (p ++ ",CODECS=\"" ++ v ++ "\"" ++ s) "CODECS=" = true := by
      unfold jsIncludes
      rw [hdata]
      apply occursList_append_right
      rw [show (',' :: (("CODECS=\"" : String).data ++ (v.data ++ '"' :: s.data))) =
        ',' :: (("CODECS=" : String).data ++ ('"' :: (v.data ++ '"' :: s.data))) from rfl]
      exact occursList_cons_of ',' (occursList_self_append _ _)
    rw [processLine_master_comment baseUrl _ hinc (by rw [hstrip, hpr]; rfl)]
    apply String.ext
    rw [String.data_append, hpr]
    rfl
  · intro hm p v s hphead hpC hv h1 hs
    rw [hm]
    obtain ⟨pr, hpr⟩ : ∃ pr, p.data = '#' :: pr := by
      cases hpd : p.data with
      | nil => rw [hpd] at hphead; exact absurd hphead (by simp)
      | cons c rest =>
        rw [hpd] at hphead
        simp only [List.head?_cons, Option.some.injEq] at hphead
        exact ⟨rest, by rw [hphead]⟩
    have hdata : (p ++ "CODECS=\"" ++ v ++ "\"" ++ s).data =
        p.data ++ (("CODECS=\"" : String).data ++ (v.data ++ '"' :: s.data)) := by
      simp only [String.data_append, List.append_assoc]
      rfl
    have hinc : jsIncludes (p ++ "CODECS=\"" ++ v ++ "\"" ++ s) "CODECS=" = true := by
      unfold jsIncludes
      rw [hdata]
      apply occursList_append_right
      rw [show (("CODECS=\"" : String).data ++ (v.data ++ '"' :: s.data)) =
        (("CODECS=" : String).data ++ ('"' :: (v.data ++ '"' :: s.data))) from rfl]
      exact occursList_self_append _ _
    have hdrop : dropThroughQuote (v.data ++ '"' :: s.data) = some s.data :=
      dropThroughQuote_append v.data s.data hv
    have hstrip0 : ∀ after : List Char,
        matchCodecsComma (("CODECS=\"" : String).data ++ (v.data ++ '"' :: s.data)) = some after →
        occursList ("CODECS=\"" : String).data after = false →
        stripCodecsList ((p ++ "CODECS=\"" ++ v ++ "\"" ++ s).data) = p.data ++ after := by
      intro after hmB hocc
      unfold stripCodecsList
      rw [hdata] at h1 ⊢
      rw [stripAux1_id _ h1]
      rw [show (("CODECS=\"" : String).data ++ (v.data ++ '"' :: s.data)) =
        'C' :: (("ODECS=\"" : String).data ++ (v.data ++ '"' :: s.data)) from rfl] at hmB ⊢
      rw [stripAux2_skip p.data _ hpC, stripAux2_cons_match hmB, stripAux2_id _ hocc]
    constructor
    · intro hhead
      obtain ⟨r, hsd⟩ : ∃ r, s.data = ',' :: r := by
        cases hsd : s.data with
        | nil => rw [hsd] at hhead; exact absurd hhead (by simp)
        | cons c0 r =>
          rw [hsd] at hhead
          simp only [List.head?_cons, Option.some.injEq] at hhead
          exact ⟨r, by rw [hhead]⟩
      have hmB : matchCodecsComma (("CODECS=\"" : String).data ++ (v.data ++ '"' :: s.data)) =
          some r := by
        unfold matchCodecsComma
        rw [prefixConsume_self_append]
        simp only [hdrop]
        rw [hsd]
        rfl
      have hocc : occursList ("CODECS=\"" : String).data r = false := by
        rw [hsd] at hs
        exact (occursList_cons_false hs).2
      rw [processLine_master_comment baseUrl _ hinc (by rw [hstrip0 r hmB hocc, hpr]; rfl)]
      apply String.ext
      rw [String.data_append, hpr, hsd]
      rfl
    · intro hhead
      have hmB : matchCodecsComma (("CODECS=\"" : String).data ++ (v.data ++ '"' :: s.data)) =
          some s.data := by
        unfold matchCodecsComma
        rw [prefixConsume_self_append]
        simp only [hdrop]
        cases hsd : s.data with
        | nil => rfl
        | cons c0 r =>
          have hc0 : c0 ≠ ',' := by
            intro hcc
            rw [hsd, hcc] at hhead
            exact hhead rfl
          simp [hc0]
      rw [processLine_master_comment baseUrl _ hinc (by rw [hstrip0 s.data hmB hs, hpr]; rfl)]
      apply String.ext
      rw [String.data_append, hpr]
      rfl

/-- Witness for C9: a manifest without the marker leaves a codec-carrying
media line untouched; under the marker, an attribute line with attributes
on both sides of its `,CODECS="…"` field loses exactly that field, and a
`CODECS="…"` field without a leading comma is removed together with its
trailing comma. -/
theorem claim_C9_witness :
    processLine "http://h/" (hasStreamInf "#EXTM3U\n#EXT-X-MEDIA:TYPE=AUDIO,CODECS=\"mp4a\"")
        "#EXT-X-MEDIA:TYPE=AUDIO,CODECS=\"mp4a\"" = "#EXT-X-MEDIA:TYPE=AUDIO,CODECS=\"mp4a\"" ∧
    processLine "http://h/" (hasStreamInf "#EXT-X-STREAM-INF")
        ("#EXT-X-STREAM-INF:BANDWIDTH=1000,RESOLUTION=1280x720" ++ ",CODECS=\"" ++
          "avc1.64001f,mp4a.40.2" ++ "\"" ++ ",FRAME-RATE=30") =
      "#EXT-X-STREAM-INF:BANDWIDTH=1000,RESOLUTION=1280x720" ++ ",FRAME-RATE=30" ∧
    processLine "http://h/" (hasStreamInf "#EXT-X-STREAM-INF")
        ("#EXT-X-STREAM-INF:" ++ "CODECS=\"" ++ "mp4a.40.2" ++ "\"" ++ ",BANDWIDTH=1000") =
      "#EXT-X-STREAM-INF:" ++ (⟨(",BANDWIDTH=1000" : String).data.tail⟩ : String) := by
  refine ⟨?_, ?_, ?_⟩
  · exact (claim_C9 "#EXTM3U\n#EXT-X-MEDIA:TYPE=AUDIO,CODECS=\"mp4a\"" "http://h/").1
      (by decide) "#EXT-X-MEDIA:TYPE=AUDIO,CODECS=\"mp4a\"" (by decide) (by decide)
  · exact (claim_C9 "#EXT-X-STREAM-INF" "http://h/").2.1
      (by decide) "#EXT-X-STREAM-INF:BANDWIDTH=1000,RESOLUTION=1280x720" "avc1.64001f,mp4a.40.2"
      ",FRAME-RATE=30" (by decide) (by decide) (by decide) (by decide) (by decide)
  · exact ((claim_C9 "#EXT-X-STREAM-INF" "http://h/").2.2
      (by decide) "#EXT-X-STREAM-INF:" "mp4a.40.2" ",BANDWIDTH=1000"
      (by decide) (by decide) (by decide) (by decide) (by decide)).1 (by decide)

end Player
